import Mathlib

/-!
Verification of the PawPal scheduling core (`src/pawpal_system.py`).

The Python classes `Owner`, `Pet`, `Task` and `Scheduler` are shallowly
embedded as Lean structures and pure functions.  Python mutation of
`self` is modelled by explicit state passing: methods that mutate the
`Scheduler` return an updated `Scheduler` value.  Python `int` is
modelled by `Int`; `None`-able fields by `Option`.
-/

namespace PawPal

/-- Entity fields of the Python `Pet` dataclass (src lines 39-47).  The
back-reference to the owner and the mutable `tasks` list are not part of
the entity value: the task list is threaded explicitly where the code
mutates it (`Pet.add_task`), and the owner back-reference is never read
by the scheduling code. -/
structure Pet where
  name : String
  species : String
  age : Int
  deriving DecidableEq

/-- The Python `Task` dataclass (src lines 69-79).  `pet` is the owning
dependent's entity value; `scheduled_time` is `None`-able (minutes from
midnight). -/
structure Task where
  name : String
  task_type : String
  duration : Int
  priority : Int
  pet : Pet
  recurrence : String := "daily"
  completed : Bool := false
  scheduled_time : Option Int := none
  deriving DecidableEq

/-- Placeholder task used as the default argument of `List.getD`. -/
def dummyTask : Task :=
  { name := "", task_type := "", duration := 0, priority := 1, pet := ⟨"", "", 0⟩ }

/-- The Python `Owner` dataclass (src lines 10-16), keeping the fields the
scheduler reads.  The owned pets are abstracted to their task lists
(in registration order), which is all `get_all_tasks` visits; the
`preferences` dict is informational only and never read by the core. -/
structure Owner where
  name : String
  available_time : Int
  petTaskLists : List (List Task)
  deriving DecidableEq

/-- `Owner.get_available_time` (src lines 18-20). -/
def Owner.get_available_time (o : Owner) : Int :=
  o.available_time

/-- `Owner.get_all_tasks` (src lines 31-36): extend an accumulator with each
pet's tasks in order. -/
def Owner.get_all_tasks (o : Owner) : List Task :=
  o.petTaskLists.flatten

/-- `Pet.add_task` (src lines 63-66) acting on the pet's task-list state:
append unless already present (Python `in` on a dataclass uses structural
equality, as does `∈` here). -/
def add_task (tasks : List Task) (t : Task) : List Task :=
  if t ∈ tasks then tasks else tasks ++ [t]

/-- `Task.__init__` followed by `Task.__post_init__` (src lines 81-88),
threading the owning pet's task-list state.  The field values of the task
being constructed are given as `t`.  Source order: the task is registered
into the pet FIRST (line 83), and only then validated (lines 85-88); a
`ValueError` is modelled as `Except.error` carrying the message.  The
returned task list is the pet's task list after the call, whether or not
construction failed. -/
def Task.construct (petTasks : List Task) (t : Task) : List Task × Except String Task :=
  let petTasks2 := add_task petTasks t
  if t.duration ≤ 0 then
    (petTasks2, Except.error "Duration must be positive")
  else if ¬ (1 ≤ t.priority ∧ t.priority ≤ 5) then
    (petTasks2, Except.error "Priority must be between 1 (highest) and 5 (lowest)")
  else
    (petTasks2, Except.ok t)

/-- Insert `a` into `l` before the first element `b` with `le a b`.
Together with `stableSort` this models Python's `sorted`, which is
specified as a stable sort: a stable sort's output is uniquely
determined by the comparison key, so any stable algorithm is an
extensionally faithful model. -/
def insertSorted (le : Task → Task → Bool) (a : Task) : List Task → List Task
  | [] => [a]
  | b :: l => if le a b then a :: b :: l else b :: insertSorted le a l

/-- Stable insertion sort modelling Python's `sorted(..., key=...)`. -/
def stableSort (le : Task → Task → Bool) : List Task → List Task
  | [] => []
  | a :: l => insertSorted le a (stableSort le l)

/-- Sum of the durations of a task list (used by `calculate_total_time`,
src lines 267-269, and time accounting). -/
def sumDur (ts : List Task) : Int :=
  (ts.map Task.duration).sum

/-- The greedy allocation loop of `generate_daily_plan` (src lines 215-221):
walk the sorted tasks with the running `time_used`, appending each task to
the plan when `time_used + task.duration <= available_time` and to the
conflicts (rejected) list otherwise.  Returns (daily_plan, conflicts). -/
def allocGo (available_time : Int) : Int → List Task → List Task × List Task
  | _, [] => ([], [])
  | time_used, t :: ts =>
    if time_used + t.duration ≤ available_time then
      let r := allocGo available_time (time_used + t.duration) ts
      (t :: r.1, r.2)
    else
      let r := allocGo available_time time_used ts
      (r.1, t :: r.2)

/-- The per-task branch outcome of the same greedy loop: `true` at the
positions the loop accepts, `false` where it rejects.  Instrumented view
of `allocGo`, tied to it by `allocGo_eq_select`. -/
def allocDecisions (available_time : Int) : Int → List Task → List Bool
  | _, [] => []
  | time_used, t :: ts =>
    if time_used + t.duration ≤ available_time then
      true :: allocDecisions available_time (time_used + t.duration) ts
    else
      false :: allocDecisions available_time time_used ts

/-- Keep the tasks whose decision bit is `true`. -/
def selectTrue : List Task → List Bool → List Task
  | t :: ts, true :: bs => t :: selectTrue ts bs
  | _ :: ts, false :: bs => selectTrue ts bs
  | _, _ => []

/-- Keep the tasks whose decision bit is `false`. -/
def selectFalse : List Task → List Bool → List Task
  | _ :: ts, true :: bs => selectFalse ts bs
  | t :: ts, false :: bs => t :: selectFalse ts bs
  | _, _ => []

/-- Sum of durations of the tasks whose decision bit is `true`. -/
def accSum : List Task → List Bool → Int
  | t :: ts, b :: bs => (if b then t.duration else 0) + accSum ts bs
  | _, _ => 0

/-- The Python `Scheduler` state (src lines 107-114). -/
structure Scheduler where
  owner : Owner
  tasks : List Task
  daily_plan : List Task
  conflicts : List Task
  deriving DecidableEq

/-- `Scheduler.__init__` (src lines 110-114). -/
def Scheduler.init (o : Owner) : Scheduler :=
  { owner := o, tasks := [], daily_plan := [], conflicts := [] }

/-- `Scheduler.load_tasks_from_owner` (src lines 126-128). -/
def Scheduler.load_tasks_from_owner (s : Scheduler) : Scheduler :=
  { s with tasks := s.owner.get_all_tasks }

/-- `sorted(self.tasks, key=lambda t: t.priority)` on a task list. -/
def sortByPriorityKey (ts : List Task) : List Task :=
  stableSort (fun a b => decide (a.priority ≤ b.priority)) ts

/-- `sorted(self.tasks, key=lambda t: t.duration)` on a task list. -/
def sortByDurationKey (ts : List Task) : List Task :=
  stableSort (fun a b => decide (a.duration ≤ b.duration)) ts

/-- `sorted(self.tasks, key=lambda t: (t.priority, t.duration))` on a task
list: Python tuple keys compare lexicographically. -/
def sortByPriorityDurationKey (ts : List Task) : List Task :=
  stableSort
    (fun a b => decide (a.priority < b.priority ∨
      (a.priority = b.priority ∧ a.duration ≤ b.duration))) ts

/-- `Scheduler.sort_by_priority` (src lines 132-134). -/
def Scheduler.sort_by_priority (s : Scheduler) : List Task :=
  sortByPriorityKey s.tasks

/-- `Scheduler.sort_by_duration` (src lines 136-138). -/
def Scheduler.sort_by_duration (s : Scheduler) : List Task :=
  sortByDurationKey s.tasks

/-- `Scheduler.sort_by_priority_then_duration` (src lines 144-149). -/
def Scheduler.sort_by_priority_then_duration (s : Scheduler) : List Task :=
  sortByPriorityDurationKey s.tasks

/-- The sort-method dispatch of `generate_daily_plan` (src lines 204-209). -/
def sortListFor (sort_method : String) (ts : List Task) : List Task :=
  if sort_method = "duration" then sortByDurationKey ts
  else if sort_method = "priority_duration" then sortByPriorityDurationKey ts
  else sortByPriorityKey ts

/-- `Scheduler.generate_daily_plan` (src lines 185-223): reset plan and
conflicts, load tasks from the owner if none are loaded, sort by the chosen
method, then run the greedy loop against the owner's available time.
Python returns `self.daily_plan`; here the updated scheduler is returned
and the Python return value is its `daily_plan` field. -/
def Scheduler.generate_daily_plan (s : Scheduler) (sort_method : String) : Scheduler :=
  let s1 : Scheduler := { s with daily_plan := [], conflicts := [] }
  let s2 : Scheduler := if s1.tasks = [] then s1.load_tasks_from_owner else s1
  let sorted_tasks := sortListFor sort_method s2.tasks
  let available_time := s2.owner.get_available_time
  let r := allocGo available_time 0 sorted_tasks
  { s2 with daily_plan := r.1, conflicts := r.2 }

/-- `Scheduler.calculate_total_time` (src lines 267-269). -/
def Scheduler.calculate_total_time (s : Scheduler) : Int :=
  sumDur s.daily_plan

/-- The scheduled time the conflict scans read after filtering out
unscheduled tasks; `.getD 0` is never reached on filtered tasks. -/
def sTime (t : Task) : Int :=
  t.scheduled_time.getD 0

/-- The overlap test of src line 290 (and 311): `task1.scheduled_time <
task2_end and task2.scheduled_time < task1_end`. -/
def overlapB (t1 t2 : Task) : Bool :=
  decide (sTime t1 < sTime t2 + t2.duration) && decide (sTime t2 < sTime t1 + t1.duration)

/-- The filter `[t for t in self.daily_plan if t.scheduled_time is not None]`
(src lines 281 and 302). -/
def scheduledOnly (plan : List Task) : List Task :=
  plan.filter (fun t => t.scheduled_time.isSome)

/-- The nested pair loop `for i, task1 in enumerate(ts): for task2 in
ts[i+1:]` (src lines 283-292 and 304-313), collecting the pairs that pass
the test `p`.  The human-readable reason string of each conflict record is
omitted: it carries no scheduling content. -/
def pairScan (p : Task → Task → Bool) : List Task → List (Task × Task)
  | [] => []
  | t :: ts => (ts.filter (p t)).map (fun u => (t, u)) ++ pairScan p ts

/-- `Scheduler.detect_time_conflicts` (src lines 273-294). -/
def Scheduler.detect_time_conflicts (s : Scheduler) : List (Task × Task) :=
  pairScan overlapB (scheduledOnly s.daily_plan)

/-- `Scheduler.detect_pet_conflicts` (src lines 296-315): same pet NAME
(`task1.pet.name == task2.pet.name`), then the same overlap test. -/
def Scheduler.detect_pet_conflicts (s : Scheduler) : List (Task × Task) :=
  pairScan (fun a b => decide (a.pet.name = b.pet.name) && overlapB a b)
    (scheduledOnly s.daily_plan)

/-- The dict returned by `detect_all_conflicts` (src lines 317-325). -/
structure ConflictReport where
  time_conflicts : List (Task × Task)
  pet_conflicts : List (Task × Task)
  deriving DecidableEq

/-- `Scheduler.detect_all_conflicts` (src lines 317-325): run both scans
independently. -/
def Scheduler.detect_all_conflicts (s : Scheduler) : ConflictReport :=
  { time_conflicts := s.detect_time_conflicts, pet_conflicts := s.detect_pet_conflicts }

/-- The loop of `assign_time_slots` (src lines 362-366): walk the plan with
the running `current_time`, stamping each task and advancing by its
duration. -/
def assignSlots (current_time : Int) : List Task → List Task
  | [] => []
  | t :: ts =>
    { t with scheduled_time := some current_time } :: assignSlots (current_time + t.duration) ts

/-- `Scheduler.assign_time_slots` (src lines 357-366): in-place mutation of
the plan's tasks modelled as replacing `daily_plan` with the stamped
list. -/
def Scheduler.assign_time_slots (s : Scheduler) (start_time : Int) : Scheduler :=
  { s with daily_plan := assignSlots start_time s.daily_plan }

/-- A task with its scheduled time erased; two tasks agree on every other
field iff their `clearSched` images are equal. -/
def clearSched (t : Task) : Task :=
  { t with scheduled_time := none }

/-- The task list `generate_daily_plan` actually feeds to the sort: the
loaded tasks when none were loaded yet (src lines 200-201), else the
scheduler's current tasks. -/
def Scheduler.tasksAfterLoad (s : Scheduler) : List Task :=
  if s.tasks = [] then s.owner.get_all_tasks else s.tasks

/-- The ordered input the greedy loop consumes inside
`generate_daily_plan` for a given sort method. -/
def Scheduler.planInput (s : Scheduler) (sort_method : String) : List Task :=
  sortListFor sort_method s.tasksAfterLoad

/-! ## Basic lemmas about the greedy allocator -/

theorem sumDur_nil : sumDur [] = 0 := rfl

theorem sumDur_cons (t : Task) (ts : List Task) :
    sumDur (t :: ts) = t.duration + sumDur ts := by
  simp [sumDur]

theorem allocGo_fst_sublist (C u : Int) (ts : List Task) :
    (allocGo C u ts).1.Sublist ts := by
  induction ts generalizing u with
  | nil => simp [allocGo]
  | cons t ts ih =>
    simp only [allocGo]
    split
    · exact List.Sublist.cons₂ t (ih (u + t.duration))
    · exact List.Sublist.cons t (ih u)

theorem allocGo_snd_sublist (C u : Int) (ts : List Task) :
    (allocGo C u ts).2.Sublist ts := by
  induction ts generalizing u with
  | nil => simp [allocGo]
  | cons t ts ih =>
    simp only [allocGo]
    split
    · exact List.Sublist.cons t (ih (u + t.duration))
    · exact List.Sublist.cons₂ t (ih u)

theorem allocGo_perm (C u : Int) (ts : List Task) :
    ts.Perm ((allocGo C u ts).1 ++ (allocGo C u ts).2) := by
  induction ts generalizing u with
  | nil => simp [allocGo]
  | cons t ts ih =>
    simp only [allocGo]
    split
    · simpa using List.Perm.cons t (ih (u + t.duration))
    · exact ((ih u).cons t).trans (List.perm_middle).symm

theorem allocGo_sum_le (C : Int) (ts : List Task) :
    ∀ u : Int, u ≤ C → u + sumDur (allocGo C u ts).1 ≤ C := by
  induction ts with
  | nil => intro u hu; simpa [allocGo, sumDur] using hu
  | cons t ts ih =>
    intro u hu
    simp only [allocGo]
    split
    · have h := ih (u + t.duration) (by omega)
      simp only [sumDur_cons]
      omega
    · exact ih u hu

/-- Closed form of `generate_daily_plan`: the state it produces. -/
theorem generate_closed (s : Scheduler) (m : String) :
    s.generate_daily_plan m =
      { owner := s.owner, tasks := s.tasksAfterLoad,
        daily_plan := (allocGo s.owner.available_time 0 (s.planInput m)).1,
        conflicts := (allocGo s.owner.available_time 0 (s.planInput m)).2 } := by
  simp only [Scheduler.generate_daily_plan, Scheduler.planInput, Scheduler.tasksAfterLoad,
    Scheduler.load_tasks_from_owner, Owner.get_available_time]
  split <;> rfl

/-! ## Concrete sample entities used by witnesses and counterexamples -/

/-- Sample dependent. -/
def petMax : Pet := ⟨"Max", "Dog", 5⟩

/-- Sample task: 20 minutes, priority 1. -/
def taskFeed : Task :=
  { name := "Feed Max", task_type := "feeding", duration := 20, priority := 1, pet := petMax }

/-- Sample task: 40 minutes, priority 2. -/
def taskWalk : Task :=
  { name := "Walk Max", task_type := "walk", duration := 40, priority := 2, pet := petMax }

/-- Sample task: 90 minutes, priority 1: alone exceeds a 60-minute budget. -/
def taskLong : Task :=
  { name := "Groom Max", task_type := "grooming", duration := 90, priority := 1, pet := petMax }

/-- Sample owner with a 60-minute budget owning `taskFeed` and `taskWalk`. -/
def ownerSixty : Owner := ⟨"Alex", 60, [[taskFeed, taskWalk]]⟩

/-- Sample scheduler for `ownerSixty`, straight out of `__init__`. -/
def schedSixty : Scheduler := Scheduler.init ownerSixty

/-! ## C1 -/

/-- C1: for every scheduler state and sort method, when the owner's
available time C is nonnegative, `generate_daily_plan` partitions the
sorted input into the accepted daily plan and the rejected set: both are
order-preserving subsequences of the sorted input, together they carry
exactly the input tasks (a permutation, and disjoint when the input has no
duplicate tasks), and the accepted durations sum to at most C. -/
theorem generate_daily_plan_partitions (s : Scheduler) (m : String)
    (h : 0 ≤ s.owner.available_time) :
    ((s.generate_daily_plan m).daily_plan.Sublist (s.planInput m)
      ∧ (s.generate_daily_plan m).conflicts.Sublist (s.planInput m))
  ∧ (s.planInput m).Perm
      ((s.generate_daily_plan m).daily_plan ++ (s.generate_daily_plan m).conflicts)
  ∧ ((s.planInput m).Nodup →
      ∀ t ∈ (s.generate_daily_plan m).daily_plan, t ∉ (s.generate_daily_plan m).conflicts)
  ∧ sumDur (s.generate_daily_plan m).daily_plan ≤ s.owner.available_time := by
  rw [generate_closed]
  refine ⟨⟨allocGo_fst_sublist _ _ _, allocGo_snd_sublist _ _ _⟩,
    allocGo_perm _ _ _, ?_, ?_⟩
  · intro hnd t ht hc
    have h2 := ((allocGo_perm s.owner.available_time 0 (s.planInput m)).nodup_iff).mp hnd
    rw [List.nodup_append] at h2
    exact h2.2.2 ht hc
  · have h3 := allocGo_sum_le s.owner.available_time (s.planInput m) 0 h
    simpa using h3

/-- Witness for C1 at a concrete scheduler with a 60-minute budget. -/
theorem generate_daily_plan_partitions_witness :
    0 ≤ schedSixty.owner.available_time
  ∧ sumDur (schedSixty.generate_daily_plan "priority").daily_plan
      ≤ schedSixty.owner.available_time :=
  ⟨by decide, (generate_daily_plan_partitions schedSixty "priority" (by decide)).2.2.2⟩

/-! ## C2: per-task acceptance characterization -/

theorem allocDecisions_length (C : Int) (ts : List Task) :
    ∀ u : Int, (allocDecisions C u ts).length = ts.length := by
  induction ts with
  | nil => intro u; rfl
  | cons t ts ih =>
    intro u
    simp only [allocDecisions]
    split <;> simp [ih]

theorem allocGo_eq_select (C : Int) (ts : List Task) :
    ∀ u : Int,
      (allocGo C u ts).1 = selectTrue ts (allocDecisions C u ts)
        ∧ (allocGo C u ts).2 = selectFalse ts (allocDecisions C u ts) := by
  induction ts with
  | nil => intro u; exact ⟨rfl, rfl⟩
  | cons t ts ih =>
    intro u
    simp only [allocGo, allocDecisions]
    split
    · simpa [selectTrue, selectFalse] using ih (u + t.duration)
    · simpa [selectTrue, selectFalse] using ih u

theorem accSum_nil (bs : List Bool) : accSum [] bs = 0 := by
  cases bs <;> rfl

theorem accSum_cons (t : Task) (ts : List Task) (b : Bool) (bs : List Bool) :
    accSum (t :: ts) (b :: bs) = (if b then t.duration else 0) + accSum ts bs := rfl

theorem ite_decision_false (x y : Int) : (if (false : Bool) = true then x else y) = y := rfl

theorem ite_decision_true (x y : Int) : (if (true : Bool) = true then x else y) = x := rfl

theorem alloc_decide_iff (C : Int) (ts : List Task) :
    ∀ (u : Int) (i : Nat), i < ts.length →
      ((allocDecisions C u ts).getD i false = true ↔
        u + accSum (ts.take i) ((allocDecisions C u ts).take i)
          + (ts.getD i dummyTask).duration ≤ C) := by
  induction ts with
  | nil => intro u i hi; simp at hi
  | cons t ts ih =>
    intro u i hi
    cases i with
    | zero =>
      by_cases hc : u + t.duration ≤ C
      · simp only [allocDecisions, if_pos hc, List.getD_cons_zero, List.take_zero, accSum_nil]
        exact ⟨fun _ => by omega, fun _ => trivial⟩
      · simp only [allocDecisions, if_neg hc, List.getD_cons_zero, List.take_zero, accSum_nil]
        constructor
        · intro hfalse; exact absurd hfalse (by decide)
        · intro hle; omega
    | succ j =>
      have hj : j < ts.length := by simpa using hi
      by_cases hc : u + t.duration ≤ C
      · simp only [allocDecisions, if_pos hc, List.getD_cons_succ, List.take_succ_cons,
          accSum_cons, ite_decision_true, if_true]
        rw [ih (u + t.duration) j hj]
        constructor <;> intro hle <;> omega
      · simp only [allocDecisions, if_neg hc, List.getD_cons_succ, List.take_succ_cons,
          accSum_cons, ite_decision_false, if_false]
        rw [ih u j hj]
        constructor <;> intro hle <;> omega

theorem sumDur_nonneg (ts : List Task) (h : ∀ t ∈ ts, 0 ≤ t.duration) :
    0 ≤ sumDur ts := by
  induction ts with
  | nil => simp [sumDur]
  | cons t ts ih =>
    rw [sumDur_cons]
    have h1 := h t (by simp)
    have h2 := ih (fun u hu => h u (by simp [hu]))
    omega

theorem allocGo_zero_capacity (ts : List Task) (h : ∀ t ∈ ts, 0 < t.duration) :
    allocGo 0 0 ts = ([], ts) := by
  induction ts with
  | nil => rfl
  | cons t ts ih =>
    have h1 := h t (by simp)
    simp only [allocGo, if_neg (by omega : ¬ ((0 : Int) + t.duration ≤ 0))]
    rw [ih (fun u hu => h u (by simp [hu]))]

theorem allocGo_accept_all (C : Int) (ts : List Task) :
    ∀ u : Int, (∀ t ∈ ts, 0 ≤ t.duration) → u + sumDur ts ≤ C →
      allocGo C u ts = (ts, []) := by
  induction ts with
  | nil => intro u _ _; rfl
  | cons t ts ih =>
    intro u h hsum
    rw [sumDur_cons] at hsum
    have hrest : 0 ≤ sumDur ts := sumDur_nonneg ts (fun u hu => h u (by simp [hu]))
    simp only [allocGo, if_pos (by omega : u + t.duration ≤ C)]
    rw [ih (u + t.duration) (fun u hu => h u (by simp [hu])) (by omega)]

/-- C2: the allocator accepts a task iff the durations of the tasks
accepted before it plus its own duration stay within capacity (inclusive
boundary).  Stated positionally: the loop's acceptance bits are tied to
the produced plan/rejected lists, bit `i` is set iff the accepted-prefix
sum plus task `i`'s duration is `≤ C`; consequently capacity `0` rejects
every (positive-duration) task, a single task whose duration alone exceeds
capacity is rejected regardless of its priority, and tasks whose
cumulative sum exactly equals capacity are all accepted. -/
theorem allocator_accepts_iff_running_sum_fits (C : Int) (ts : List Task) :
    ((allocGo C 0 ts).1 = selectTrue ts (allocDecisions C 0 ts)
      ∧ (allocGo C 0 ts).2 = selectFalse ts (allocDecisions C 0 ts))
  ∧ (∀ i : Nat, i < ts.length →
      ((allocDecisions C 0 ts).getD i false = true ↔
        accSum (ts.take i) ((allocDecisions C 0 ts).take i)
          + (ts.getD i dummyTask).duration ≤ C))
  ∧ (C = 0 → (∀ t ∈ ts, 0 < t.duration) → allocGo C 0 ts = ([], ts))
  ∧ (∀ t : Task, C < t.duration → allocGo C 0 [t] = ([], [t]))
  ∧ ((∀ t ∈ ts, 0 ≤ t.duration) → sumDur ts = C → allocGo C 0 ts = (ts, [])) := by
  refine ⟨allocGo_eq_select C ts 0, ?_, ?_, ?_, ?_⟩
  · intro i hi
    have h := alloc_decide_iff C ts 0 i hi
    rw [h]
    constructor <;> intro hle <;> omega
  · intro hC h
    subst hC
    exact allocGo_zero_capacity ts h
  · intro t ht
    simp only [allocGo, if_neg (by omega : ¬ ((0 : Int) + t.duration ≤ C))]
  · intro h hsum
    exact allocGo_accept_all C ts 0 h (by omega)

/-- Witness for C2 at concrete inputs: zero capacity rejects, an oversized
single task is rejected, an exactly-fitting pair is fully accepted, and
the acceptance bit of position 0 matches the running-sum test. -/
theorem allocator_accepts_iff_running_sum_fits_witness :
    allocGo 0 0 [taskFeed] = ([], [taskFeed])
  ∧ allocGo 60 0 [taskLong] = ([], [taskLong])
  ∧ allocGo 60 0 [taskFeed, taskWalk] = ([taskFeed, taskWalk], [])
  ∧ ((allocDecisions 60 0 [taskFeed, taskWalk]).getD 0 false = true ↔
      accSum ([taskFeed, taskWalk].take 0) ((allocDecisions 60 0 [taskFeed, taskWalk]).take 0)
        + ([taskFeed, taskWalk].getD 0 dummyTask).duration ≤ 60) := by
  refine ⟨?_, ?_, ?_, ?_⟩
  · exact (allocator_accepts_iff_running_sum_fits 0 [taskFeed]).2.2.1 rfl (by decide)
  · exact (allocator_accepts_iff_running_sum_fits 60 [taskLong]).2.2.2.1 taskLong (by decide)
  · exact (allocator_accepts_iff_running_sum_fits 60 [taskFeed, taskWalk]).2.2.2.2
      (by decide) (by decide)
  · exact (allocator_accepts_iff_running_sum_fits 60 [taskFeed, taskWalk]).2.1 0 (by decide)

/-! ## C7: the by-priority ordering is a stable ascending sort -/

theorem insertSorted_perm (le : Task → Task → Bool) (a : Task) :
    ∀ l : List Task, (insertSorted le a l).Perm (a :: l) := by
  intro l
  induction l with
  | nil => exact List.Perm.refl _
  | cons b l ih =>
    simp only [insertSorted]
    split
    · exact List.Perm.refl _
    · exact (ih.cons b).trans (List.Perm.swap a b l)

theorem stableSort_perm (le : Task → Task → Bool) :
    ∀ l : List Task, (stableSort le l).Perm l := by
  intro l
  induction l with
  | nil => exact List.Perm.refl _
  | cons a l ih =>
    exact (insertSorted_perm le a (stableSort le l)).trans (ih.cons a)

theorem insertSorted_pairwise_priority (a : Task) (l : List Task)
    (h : l.Pairwise (fun x y => x.priority ≤ y.priority)) :
    (insertSorted (fun x y => decide (x.priority ≤ y.priority)) a l).Pairwise
      (fun x y => x.priority ≤ y.priority) := by
  induction l with
  | nil => simp [insertSorted]
  | cons b l ih =>
    rw [List.pairwise_cons] at h
    simp only [insertSorted]
    by_cases hab : a.priority ≤ b.priority
    · rw [if_pos (by simpa using hab)]
      refine List.Pairwise.cons ?_ (List.pairwise_cons.mpr h)
      intro x hx
      rcases List.mem_cons.mp hx with hxb | hxl
      · subst hxb; exact hab
      · exact le_trans hab (h.1 x hxl)
    · rw [if_neg (by simpa using hab)]
      refine List.Pairwise.cons ?_ (ih h.2)
      intro x hx
      have hx2 := (insertSorted_perm _ a l).mem_iff.mp hx
      rcases List.mem_cons.mp hx2 with hxa | hxl
      · subst hxa; omega
      · exact h.1 x hxl

theorem stableSort_pairwise_priority (l : List Task) :
    (stableSort (fun x y => decide (x.priority ≤ y.priority)) l).Pairwise
      (fun x y => x.priority ≤ y.priority) := by
  induction l with
  | nil => simp [stableSort]
  | cons a l ih => exact insertSorted_pairwise_priority a _ ih

theorem insertSorted_filter_priority (a : Task) (k : Int) (l : List Task) :
    (insertSorted (fun x y => decide (x.priority ≤ y.priority)) a l).filter
        (fun t => decide (t.priority = k))
      = if a.priority = k then a :: l.filter (fun t => decide (t.priority = k))
        else l.filter (fun t => decide (t.priority = k)) := by
  induction l with
  | nil => by_cases hak : a.priority = k <;> simp [insertSorted, List.filter, hak]
  | cons b l ih =>
    simp only [insertSorted]
    by_cases hab : a.priority ≤ b.priority
    · rw [if_pos (by simpa using hab)]
      by_cases hak : a.priority = k
      · rw [if_pos hak]
        simp [List.filter_cons, hak]
      · rw [if_neg hak]
        simp [List.filter_cons, hak]
    · rw [if_neg (by simpa using hab)]
      have hbk : ¬ b.priority = k ∨ ¬ a.priority = k := by
        by_cases hak : a.priority = k
        · left; omega
        · right; exact hak
      by_cases hak : a.priority = k
      · rw [if_pos hak]
        have hb : ¬ b.priority = k := by omega
        simp only [List.filter_cons, ih, if_pos hak]
        simp [hb]
      · rw [if_neg hak]
        simp only [List.filter_cons, ih, if_neg hak]

theorem stableSort_filter_priority (l : List Task) (k : Int) :
    (stableSort (fun x y => decide (x.priority ≤ y.priority)) l).filter
        (fun t => decide (t.priority = k))
      = l.filter (fun t => decide (t.priority = k)) := by
  induction l with
  | nil => rfl
  | cons a l ih =>
    simp only [stableSort, insertSorted_filter_priority, ih, List.filter_cons]
    by_cases hak : a.priority = k
    · simp [hak]
    · simp [hak]

/-- C7: `sort_by_priority` is a stable ascending sort by priority: the
output is a permutation of the scheduler's tasks, adjacent priorities are
nondecreasing (priority 1 before priority 5), and for every priority
value the equal-priority tasks appear in exactly their original relative
(insertion) order. -/
theorem sort_by_priority_sorted_and_stable (s : Scheduler) :
    (s.sort_by_priority).Pairwise (fun a b => a.priority ≤ b.priority)
  ∧ (∀ k : Int,
      (s.sort_by_priority).filter (fun t => decide (t.priority = k))
        = s.tasks.filter (fun t => decide (t.priority = k)))
  ∧ (s.sort_by_priority).Perm s.tasks :=
  ⟨stableSort_pairwise_priority s.tasks,
   fun k => stableSort_filter_priority s.tasks k,
   stableSort_perm _ s.tasks⟩

/-! ## C3: validation happens only after the registration side effect -/

/-- A construction attempt with a negative duration. -/
def taskBadDuration : Task :=
  { name := "Bad duration", task_type := "feeding", duration := -10, priority := 1, pet := petMax }

/-- A construction attempt with priority 6, outside [1, 5]. -/
def taskBadPriority : Task :=
  { name := "Bad priority", task_type := "feeding", duration := 10, priority := 6, pet := petMax }

/-- C3: evaluation of `Task` construction at the failing inputs.  The
validation error is raised with the message identifying the violated
constraint, but — contrary to the claim — the failed task HAS been
registered into its dependent's task collection, because
`__post_init__` registers (src line 83) before it validates (src lines
85-88). -/
theorem task_construct_registers_despite_validation_failure :
    ((Task.construct [] taskBadDuration).2 = Except.error "Duration must be positive"
      ∧ taskBadDuration ∈ (Task.construct [] taskBadDuration).1)
  ∧ ((Task.construct [] taskBadPriority).2
        = Except.error "Priority must be between 1 (highest) and 5 (lowest)"
      ∧ taskBadPriority ∈ (Task.construct [] taskBadPriority).1) :=
  ⟨⟨rfl, by decide⟩, ⟨rfl, by decide⟩⟩

/-! ## C6 and C9: sequential time-slot assignment -/

theorem assignSlots_length (ts : List Task) :
    ∀ s : Int, (assignSlots s ts).length = ts.length := by
  induction ts with
  | nil => intro s; rfl
  | cons t ts ih => intro s; simp [assignSlots, ih]

theorem sumDur_take_succ (ts : List Task) :
    ∀ i : Nat, i < ts.length →
      sumDur (ts.take (i + 1)) = sumDur (ts.take i) + (ts.getD i dummyTask).duration := by
  induction ts with
  | nil => intro i hi; simp at hi
  | cons t ts ih =>
    intro i hi
    cases i with
    | zero => simp [sumDur, List.take_succ_cons]
    | succ j =>
      have hj : j < ts.length := by simpa using hi
      simp only [List.take_succ_cons, sumDur_cons, List.getD_cons_succ, ih j hj]
      ring

theorem assignSlots_getD (ts : List Task) :
    ∀ (s : Int) (i : Nat), i < ts.length →
      ((assignSlots s ts).getD i dummyTask).scheduled_time
        = some (s + sumDur (ts.take i)) := by
  induction ts with
  | nil => intro s i hi; simp at hi
  | cons t ts ih =>
    intro s i hi
    cases i with
    | zero => simp [assignSlots, sumDur]
    | succ j =>
      have hj : j < ts.length := by simpa using hi
      simp only [assignSlots, List.getD_cons_succ, List.take_succ_cons, sumDur_cons,
        ih (s + t.duration) j hj]
      congr 1
      ring

theorem assignSlots_getD_duration (ts : List Task) :
    ∀ (s : Int) (i : Nat), i < ts.length →
      ((assignSlots s ts).getD i dummyTask).duration = (ts.getD i dummyTask).duration := by
  induction ts with
  | nil => intro s i hi; simp at hi
  | cons t ts ih =>
    intro s i hi
    cases i with
    | zero => rfl
    | succ j =>
      have hj : j < ts.length := by simpa using hi
      simp only [assignSlots, List.getD_cons_succ, ih (s + t.duration) j hj]

theorem assignSlots_clearSched (ts : List Task) :
    ∀ s : Int, (assignSlots s ts).map clearSched = ts.map clearSched := by
  induction ts with
  | nil => intro s; rfl
  | cons t ts ih => intro s; simp only [assignSlots, List.map_cons, ih]; rfl

theorem assignSlots_assignSlots (ts : List Task) :
    ∀ s1 s2 : Int, assignSlots s2 (assignSlots s1 ts) = assignSlots s2 ts := by
  induction ts with
  | nil => intro s1 s2; rfl
  | cons t ts ih =>
    intro s1 s2
    simp only [assignSlots, ih (s1 + t.duration) (s2 + t.duration)]

/-- C6: `assign_time_slots` stamps the accepted plan back-to-back: the
first task starts at the offset, each later task starts where the previous
one ends, only the scheduled-start field of the plan's tasks (and nothing
else in the scheduler) is mutated, and a second call fully overwrites the
first (last call wins). -/
theorem assign_time_slots_daily_plan (s : Scheduler) (start : Int) :
    (s.assign_time_slots start).daily_plan = assignSlots start s.daily_plan := rfl

theorem assign_time_slots_spec (s : Scheduler) (start : Int) :
    ((s.assign_time_slots start).daily_plan.map clearSched = s.daily_plan.map clearSched
      ∧ (s.assign_time_slots start).owner = s.owner
      ∧ (s.assign_time_slots start).tasks = s.tasks
      ∧ (s.assign_time_slots start).conflicts = s.conflicts)
  ∧ (0 < s.daily_plan.length →
      ((s.assign_time_slots start).daily_plan.getD 0 dummyTask).scheduled_time = some start)
  ∧ (∀ i : Nat, i + 1 < s.daily_plan.length →
      ((s.assign_time_slots start).daily_plan.getD (i + 1) dummyTask).scheduled_time
        = some (sTime ((s.assign_time_slots start).daily_plan.getD i dummyTask)
            + ((s.assign_time_slots start).daily_plan.getD i dummyTask).duration))
  ∧ (∀ s2 : Int, (s.assign_time_slots start).assign_time_slots s2 = s.assign_time_slots s2) := by
  refine ⟨⟨assignSlots_clearSched s.daily_plan start, rfl, rfl, rfl⟩, ?_, ?_, ?_⟩
  · intro h0
    have h := assignSlots_getD s.daily_plan start 0 h0
    simpa [sumDur] using h
  · intro i hi
    have hilt : i < s.daily_plan.length := by omega
    have h1 := assignSlots_getD s.daily_plan start (i + 1) hi
    have h2 := assignSlots_getD s.daily_plan start i hilt
    have h3 := assignSlots_getD_duration s.daily_plan start i hilt
    rw [assign_time_slots_daily_plan, h1, sumDur_take_succ s.daily_plan i hilt]
    have h4 : sTime ((assignSlots start s.daily_plan).getD i dummyTask)
        = start + sumDur (s.daily_plan.take i) := by
      rw [sTime, h2]; rfl
    rw [h4, h3]
    congr 1
    ring
  · intro s2
    simp only [Scheduler.assign_time_slots, assignSlots_assignSlots]

/-- A scheduler whose daily plan already holds the two sample tasks. -/
def schedPlanned : Scheduler :=
  { owner := ownerSixty, tasks := [taskFeed, taskWalk],
    daily_plan := [taskFeed, taskWalk], conflicts := [] }

/-- Witness for C6 at a concrete two-task plan and offset 480. -/
theorem assign_time_slots_spec_witness :
    ((schedPlanned.assign_time_slots 480).daily_plan.getD 0 dummyTask).scheduled_time = some 480
  ∧ ((schedPlanned.assign_time_slots 480).daily_plan.getD 1 dummyTask).scheduled_time
      = some (sTime ((schedPlanned.assign_time_slots 480).daily_plan.getD 0 dummyTask)
          + ((schedPlanned.assign_time_slots 480).daily_plan.getD 0 dummyTask).duration) :=
  ⟨(assign_time_slots_spec schedPlanned 480).2.1 (by decide),
   (assign_time_slots_spec schedPlanned 480).2.2.1 0 (by decide)⟩

theorem assignSlots_all_scheduled (ts : List Task) :
    ∀ s : Int, ∀ u ∈ assignSlots s ts, u.scheduled_time.isSome := by
  induction ts with
  | nil => intro s u hu; simp [assignSlots] at hu
  | cons t ts ih =>
    intro s u hu
    rcases List.mem_cons.mp hu with h1 | h2
    · subst h1; rfl
    · exact ih (s + t.duration) u h2

theorem assignSlots_lower_bound (ts : List Task) (hd : ∀ t ∈ ts, 0 ≤ t.duration) :
    ∀ s : Int, ∀ u ∈ assignSlots s ts, s ≤ sTime u := by
  induction ts with
  | nil => intro s u hu; simp [assignSlots] at hu
  | cons t ts ih =>
    intro s u hu
    rcases List.mem_cons.mp hu with h1 | h2
    · subst h1; simp [sTime]
    · have ht := hd t (by simp)
      have ih2 := ih (fun x hx => hd x (by simp [hx])) (s + t.duration) u h2
      omega

theorem pairScan_assignSlots_nil (ts : List Task) (hd : ∀ t ∈ ts, 0 < t.duration) :
    ∀ s : Int, pairScan overlapB (assignSlots s ts) = [] := by
  induction ts with
  | nil => intro s; rfl
  | cons t ts ih =>
    intro s
    simp only [assignSlots, pairScan, List.append_eq_nil]
    constructor
    · rw [List.map_eq_nil_iff, List.filter_eq_nil_iff]
      intro u hu
      have hge : s + t.duration ≤ sTime u :=
        assignSlots_lower_bound ts (fun x hx => le_of_lt (hd x (by simp [hx])))
          (s + t.duration) u hu
      simp only [overlapB, Bool.and_eq_true, decide_eq_true_eq, not_and, not_lt]
      intro _
      have hsched : sTime { t with scheduled_time := some s } = s := rfl
      have hdur : ({ t with scheduled_time := some s } : Task).duration = t.duration := rfl
      omega
    · exact ih (fun x hx => hd x (by simp [hx])) (s + t.duration)

/-- C9: stamping the plan back-to-back with `assign_time_slots` and then
running the temporal conflict detector over that plan yields zero
conflicts, for any plan of positive-duration tasks and any start
offset. -/
theorem assign_then_detect_time_conflicts_empty (s : Scheduler) (start : Int)
    (h : ∀ t ∈ s.daily_plan, 0 < t.duration) :
    (s.assign_time_slots start).detect_time_conflicts = [] := by
  show pairScan overlapB (scheduledOnly (assignSlots start s.daily_plan)) = []
  rw [scheduledOnly, List.filter_eq_self.mpr (assignSlots_all_scheduled s.daily_plan start)]
  exact pairScan_assignSlots_nil s.daily_plan h start

/-- Witness for C9 at a concrete two-task plan and offset 480. -/
theorem assign_then_detect_time_conflicts_empty_witness :
    (schedPlanned.assign_time_slots 480).detect_time_conflicts = [] :=
  assign_then_detect_time_conflicts_empty schedPlanned 480 (by decide)

/-! ## C8: plan generation is idempotent and resets prior state -/

theorem generate_owner (s : Scheduler) (m : String) :
    (s.generate_daily_plan m).owner = s.owner := by
  rw [generate_closed]

theorem tasksAfterLoad_generate (s : Scheduler) (m : String) :
    (s.generate_daily_plan m).tasksAfterLoad = s.tasksAfterLoad := by
  rw [generate_closed]
  show Scheduler.tasksAfterLoad _ = _
  by_cases h : s.tasks = []
  · simp [Scheduler.tasksAfterLoad, h, ite_self]
  · simp [Scheduler.tasksAfterLoad, h]

theorem planInput_generate (s : Scheduler) (m : String) :
    (s.generate_daily_plan m).planInput m = s.planInput m := by
  unfold Scheduler.planInput
  rw [tasksAfterLoad_generate]

theorem generate_generate (s : Scheduler) (m : String) :
    (s.generate_daily_plan m).generate_daily_plan m = s.generate_daily_plan m := by
  rw [generate_closed (s.generate_daily_plan m) m, generate_owner, tasksAfterLoad_generate,
    planInput_generate, generate_closed s m]

/-- C8: `generate_daily_plan` is idempotent and re-runnable: a second run
with the same sort method reproduces the same accepted/rejected partition
(indeed the same scheduler state), the result never depends on the daily
plan or rejected set left by prior calls (each invocation resets them
before recomputing), and the total time used is the sum of durations of
the current accepted plan, recomputed from it. -/
theorem generate_daily_plan_idempotent (s : Scheduler) (m : String) :
    (((s.generate_daily_plan m).generate_daily_plan m).daily_plan
        = (s.generate_daily_plan m).daily_plan
      ∧ ((s.generate_daily_plan m).generate_daily_plan m).conflicts
        = (s.generate_daily_plan m).conflicts)
  ∧ (∀ p c : List Task,
      Scheduler.generate_daily_plan { s with daily_plan := p, conflicts := c } m
        = s.generate_daily_plan m)
  ∧ (s.generate_daily_plan m).calculate_total_time
      = sumDur (s.generate_daily_plan m).daily_plan := by
  refine ⟨⟨?_, ?_⟩, ?_, rfl⟩
  · rw [generate_generate]
  · rw [generate_generate]
  · intro p c
    simp only [generate_closed]
    rfl

/-! ## Pairwise scan lemmas shared by the conflict-detector claims -/

theorem pairScan_mem (p : Task → Task → Bool) :
    ∀ (l : List Task) (a b : Task),
      (a, b) ∈ pairScan p l → a ∈ l ∧ b ∈ l ∧ p a b = true := by
  intro l
  induction l with
  | nil => intro a b h; simp [pairScan] at h
  | cons t ts ih =>
    intro a b h
    simp only [pairScan, List.mem_append] at h
    rcases h with h1 | h2
    · rcases List.mem_map.mp h1 with ⟨u, hu, huv⟩
      have hfa : t = a := congrArg Prod.fst huv
      have hfb : u = b := congrArg Prod.snd huv
      subst hfa
      subst hfb
      have h3 := List.mem_filter.mp hu
      exact ⟨List.mem_cons_self t ts, List.mem_cons_of_mem t h3.1, h3.2⟩
    · have h3 := ih a b h2
      exact ⟨List.mem_cons_of_mem t h3.1, List.mem_cons_of_mem t h3.2.1, h3.2.2⟩

theorem pairScan_not_self (p : Task → Task → Bool) :
    ∀ l : List Task, l.Nodup → ∀ a : Task, (a, a) ∉ pairScan p l := by
  intro l
  induction l with
  | nil => intro _ a h; simp [pairScan] at h
  | cons t ts ih =>
    intro hnd a h
    rw [List.nodup_cons] at hnd
    simp only [pairScan, List.mem_append] at h
    rcases h with h1 | h2
    · rcases List.mem_map.mp h1 with ⟨u, hu, huv⟩
      have hfa : t = a := congrArg Prod.fst huv
      have hfb : u = a := congrArg Prod.snd huv
      rw [← hfa] at hfb
      subst hfb
      exact hnd.1 (List.mem_filter.mp hu).1
    · exact ih hnd.2 a h2

theorem count_pair_map (x y : Task) (l : List Task) :
    (l.map (fun u => (x, u))).count (x, y) = l.count y := by
  induction l with
  | nil => rfl
  | cons u l ih =>
    simp only [List.map_cons, List.count_cons, ih]
    congr 1
    by_cases h : u = y
    · subst h; simp
    · simp [h]

theorem pairScan_count (p : Task → Task → Bool) (hsym : ∀ x y, p x y = p y x) :
    ∀ l : List Task, l.Nodup → ∀ a b : Task, a ≠ b →
      (pairScan p l).count (a, b) + (pairScan p l).count (b, a)
        = if a ∈ l ∧ b ∈ l ∧ p a b = true then 1 else 0 := by
  intro l
  induction l with
  | nil => intro _ a b _; simp [pairScan]
  | cons t ts ih =>
    intro hnd a b hab
    rw [List.nodup_cons] at hnd
    have hM : ∀ x y : Task,
        ((ts.filter (p t)).map (fun u => (t, u))).count (x, y)
          = if x = t ∧ p t y = true ∧ y ∈ ts then 1 else 0 := by
      intro x y
      by_cases hx : x = t
      · subst hx
        rw [count_pair_map x y (ts.filter (p x))]
        by_cases hpy : p x y = true
        · rw [List.count_filter hpy]
          by_cases hyts : y ∈ ts
          · rw [List.count_eq_one_of_mem hnd.2 hyts, if_pos ⟨rfl, hpy, hyts⟩]
          · rw [List.count_eq_zero.mpr hyts, if_neg (fun hcon => hyts hcon.2.2)]
        · have hnm : y ∉ ts.filter (p x) := fun hyf => hpy (List.mem_filter.mp hyf).2
          rw [List.count_eq_zero.mpr hnm, if_neg (fun hcon => hpy hcon.2.1)]
      · have hnm : (x, y) ∉ (ts.filter (p t)).map (fun u => (t, u)) := by
          intro hmem
          rcases List.mem_map.mp hmem with ⟨u, _, huv⟩
          exact hx (congrArg Prod.fst huv).symm
        rw [List.count_eq_zero.mpr hnm, if_neg (fun hcon => hx hcon.1)]
    have hR1 : ∀ x y : Task, x ∉ ts → (pairScan p ts).count (x, y) = 0 := fun x y hx =>
      List.count_eq_zero.mpr (fun hmem => hx (pairScan_mem p ts x y hmem).1)
    have hR2 : ∀ x y : Task, y ∉ ts → (pairScan p ts).count (x, y) = 0 := fun x y hy =>
      List.count_eq_zero.mpr (fun hmem => hy (pairScan_mem p ts x y hmem).2.1)
    simp only [pairScan, List.count_append]
    by_cases hat : a = t
    · have hbt : b ≠ t := fun h => hab (by rw [hat, h])
      have hanots : a ∉ ts := by rw [hat]; exact hnd.1
      have e1 : ((ts.filter (p t)).map (fun u => (t, u))).count (b, a) = 0 := by
        rw [hM b a]; exact if_neg (fun hcon => hbt hcon.1)
      have e2 : (pairScan p ts).count (a, b) = 0 := hR1 a b hanots
      have e3 : (pairScan p ts).count (b, a) = 0 := hR2 b a hanots
      by_cases hb : b ∈ ts
      · by_cases hpb : p a b = true
        · have e4 : ((ts.filter (p t)).map (fun u => (t, u))).count (a, b) = 1 := by
            rw [hM a b]
            exact if_pos ⟨hat, by rw [← hat]; exact hpb, hb⟩
          have e5 : (if a ∈ t :: ts ∧ b ∈ t :: ts ∧ p a b = true then 1 else 0) = 1 :=
            if_pos ⟨by rw [hat]; exact List.mem_cons_self t ts,
              List.mem_cons_of_mem t hb, hpb⟩
          rw [e4, e1, e2, e3, e5]
        · have e4 : ((ts.filter (p t)).map (fun u => (t, u))).count (a, b) = 0 := by
            rw [hM a b]
            exact if_neg (fun hcon => hpb (by rw [hat]; exact hcon.2.1))
          have e5 : (if a ∈ t :: ts ∧ b ∈ t :: ts ∧ p a b = true then 1 else 0) = 0 :=
            if_neg (fun hcon => hpb hcon.2.2)
          rw [e4, e1, e2, e3, e5]
      · have e4 : ((ts.filter (p t)).map (fun u => (t, u))).count (a, b) = 0 := by
          rw [hM a b]; exact if_neg (fun hcon => hb hcon.2.2)
        have e5 : (if a ∈ t :: ts ∧ b ∈ t :: ts ∧ p a b = true then 1 else 0) = 0 :=
          if_neg (fun hcon => (List.mem_cons.mp hcon.2.1).elim hbt hb)
        rw [e4, e1, e2, e3, e5]
    · by_cases hbt : b = t
      · have hbnots : b ∉ ts := by rw [hbt]; exact hnd.1
        have e1 : ((ts.filter (p t)).map (fun u => (t, u))).count (a, b) = 0 := by
          rw [hM a b]; exact if_neg (fun hcon => hat hcon.1)
        have e2 : (pairScan p ts).count (a, b) = 0 := hR2 a b hbnots
        have e3 : (pairScan p ts).count (b, a) = 0 := hR1 b a hbnots
        have hpab : p a b = p t a := by rw [hsym a b, hbt]
        by_cases ha : a ∈ ts
        · by_cases hpa : p t a = true
          · have e4 : ((ts.filter (p t)).map (fun u => (t, u))).count (b, a) = 1 := by
              rw [hM b a]; exact if_pos ⟨hbt, hpa, ha⟩
            have e5 : (if a ∈ t :: ts ∧ b ∈ t :: ts ∧ p a b = true then 1 else 0) = 1 :=
              if_pos ⟨List.mem_cons_of_mem t ha,
                by rw [hbt]; exact List.mem_cons_self t ts, by rw [hpab]; exact hpa⟩
            rw [e1, e2, e3, e4, e5]
          · have e4 : ((ts.filter (p t)).map (fun u => (t, u))).count (b, a) = 0 := by
              rw [hM b a]; exact if_neg (fun hcon => hpa hcon.2.1)
            have e5 : (if a ∈ t :: ts ∧ b ∈ t :: ts ∧ p a b = true then 1 else 0) = 0 :=
              if_neg (fun hcon => hpa (by rw [← hpab]; exact hcon.2.2))
            rw [e1, e2, e3, e4, e5]
        · have e4 : ((ts.filter (p t)).map (fun u => (t, u))).count (b, a) = 0 := by
            rw [hM b a]; exact if_neg (fun hcon => ha hcon.2.2)
          have e5 : (if a ∈ t :: ts ∧ b ∈ t :: ts ∧ p a b = true then 1 else 0) = 0 :=
            if_neg (fun hcon => (List.mem_cons.mp hcon.1).elim hat ha)
          rw [e1, e2, e3, e4, e5]
      · have e1 : ((ts.filter (p t)).map (fun u => (t, u))).count (a, b) = 0 := by
          rw [hM a b]; exact if_neg (fun hcon => hat hcon.1)
        have e2 : ((ts.filter (p t)).map (fun u => (t, u))).count (b, a) = 0 := by
          rw [hM b a]; exact if_neg (fun hcon => hbt hcon.1)
        have hre := ih hnd.2 a b hab
        have e5 : (if a ∈ t :: ts ∧ b ∈ t :: ts ∧ p a b = true then 1 else 0)
            = (if a ∈ ts ∧ b ∈ ts ∧ p a b = true then 1 else 0) :=
          if_congr (by simp [List.mem_cons, hat, hbt]) rfl rfl
        rw [e1, e2, e5, Nat.zero_add, Nat.zero_add, hre]

theorem overlapB_symm (a b : Task) : overlapB a b = overlapB b a := by
  simp only [overlapB]
  rw [Bool.and_comm]

theorem pairScan_mono (p q : Task → Task → Bool)
    (hpq : ∀ x y : Task, p x y = true → q x y = true) :
    ∀ (l : List Task) (a b : Task), (a, b) ∈ pairScan p l → (a, b) ∈ pairScan q l := by
  intro l
  induction l with
  | nil => intro a b h; simp [pairScan] at h
  | cons t ts ih =>
    intro a b h
    simp only [pairScan, List.mem_append] at h
    simp only [pairScan, List.mem_append]
    rcases h with h1 | h2
    · left
      rcases List.mem_map.mp h1 with ⟨u, hu, huv⟩
      have h3 := List.mem_filter.mp hu
      exact List.mem_map.mpr ⟨u, List.mem_filter.mpr ⟨h3.1, hpq t u h3.2⟩, huv⟩
    · right
      exact ih a b h2

/-! ## C4: temporal conflict detection -/

/-- C4: a pair is reported by `detect_time_conflicts` only if both tasks
carry a concrete scheduled time and their half-open intervals overlap per
`A.start < B.start + B.duration AND B.start < A.start + A.duration`; when
the scheduled tasks are pairwise distinct, each unordered overlapping pair
is reported exactly once and no task is paired with itself; a task ending
exactly when another begins is never reported; and tasks without a
scheduled start time never appear in any reported pair. -/
theorem detect_time_conflicts_characterization (s : Scheduler) :
    (∀ a b : Task, (a, b) ∈ s.detect_time_conflicts →
        a.scheduled_time.isSome ∧ b.scheduled_time.isSome
          ∧ sTime a < sTime b + b.duration ∧ sTime b < sTime a + a.duration)
  ∧ ((scheduledOnly s.daily_plan).Nodup → ∀ a b : Task, a ≠ b →
      s.detect_time_conflicts.count (a, b) + s.detect_time_conflicts.count (b, a)
        = if a ∈ scheduledOnly s.daily_plan ∧ b ∈ scheduledOnly s.daily_plan
              ∧ sTime a < sTime b + b.duration ∧ sTime b < sTime a + a.duration
          then 1 else 0)
  ∧ ((scheduledOnly s.daily_plan).Nodup → ∀ a : Task, (a, a) ∉ s.detect_time_conflicts)
  ∧ (∀ a b : Task, sTime a + a.duration = sTime b →
      (a, b) ∉ s.detect_time_conflicts ∧ (b, a) ∉ s.detect_time_conflicts)
  ∧ (∀ a : Task, a.scheduled_time = none →
      ∀ b : Task, (a, b) ∉ s.detect_time_conflicts ∧ (b, a) ∉ s.detect_time_conflicts) := by
  have hsound : ∀ a b : Task, (a, b) ∈ s.detect_time_conflicts →
      a.scheduled_time.isSome ∧ b.scheduled_time.isSome
        ∧ sTime a < sTime b + b.duration ∧ sTime b < sTime a + a.duration := by
    intro a b h
    have h2 := pairScan_mem overlapB (scheduledOnly s.daily_plan) a b h
    have ha := (List.mem_filter.mp h2.1).2
    have hb := (List.mem_filter.mp h2.2.1).2
    have hov := h2.2.2
    simp only [overlapB, Bool.and_eq_true, decide_eq_true_eq] at hov
    exact ⟨by simpa using ha, by simpa using hb, hov.1, hov.2⟩
  refine ⟨hsound, ?_, ?_, ?_, ?_⟩
  · intro hnd a b hab
    show (pairScan overlapB (scheduledOnly s.daily_plan)).count (a, b)
        + (pairScan overlapB (scheduledOnly s.daily_plan)).count (b, a) = _
    rw [pairScan_count overlapB overlapB_symm (scheduledOnly s.daily_plan) hnd a b hab]
    exact if_congr (by simp [overlapB, and_assoc]) rfl rfl
  · intro hnd a
    exact pairScan_not_self overlapB (scheduledOnly s.daily_plan) hnd a
  · intro a b heq
    constructor
    · intro hmem
      have h2 := hsound a b hmem
      omega
    · intro hmem
      have h2 := hsound b a hmem
      omega
  · intro a hnone b
    constructor
    · intro hmem
      have h2 := (hsound a b hmem).1
      rw [hnone] at h2
      exact absurd h2 (by decide)
    · intro hmem
      have h2 := (hsound b a hmem).2.1
      rw [hnone] at h2
      exact absurd h2 (by decide)

/-- Sample scheduled task: 9:00-9:30. -/
def taskNineAM : Task :=
  { name := "Walk at 9", task_type := "walk", duration := 30, priority := 2,
    pet := petMax, scheduled_time := some 540 }

/-- Sample scheduled task: 9:15-9:45, overlapping `taskNineAM`. -/
def taskNineFifteen : Task :=
  { name := "Groom at 915", task_type := "grooming", duration := 30, priority := 3,
    pet := petMax, scheduled_time := some 555 }

/-- A scheduler whose daily plan holds the two overlapping scheduled tasks. -/
def schedOverlap : Scheduler :=
  { owner := ownerSixty, tasks := [taskNineAM, taskNineFifteen],
    daily_plan := [taskNineAM, taskNineFifteen], conflicts := [] }

/-- Witness for C4 at a concrete overlapping pair: it is reported exactly
once. -/
theorem detect_time_conflicts_characterization_witness :
    schedOverlap.detect_time_conflicts.count (taskNineAM, taskNineFifteen)
      + schedOverlap.detect_time_conflicts.count (taskNineFifteen, taskNineAM) = 1 := by
  have h := (detect_time_conflicts_characterization schedOverlap).2.1 (by decide)
    taskNineAM taskNineFifteen (by decide)
  exact h.trans (by decide)

/-! ## C5 and C10: resource (pet) conflict detection -/

/-- The pair test of `detect_pet_conflicts`: same pet name, then the
temporal overlap test. -/
def petPairTest (a b : Task) : Bool :=
  decide (a.pet.name = b.pet.name) && overlapB a b

theorem petPairTest_symm (a b : Task) : petPairTest a b = petPairTest b a := by
  simp only [petPairTest]
  rw [overlapB_symm, decide_eq_decide.mpr (eq_comm)]

theorem detect_pet_conflicts_eq (s : Scheduler) :
    s.detect_pet_conflicts = pairScan petPairTest (scheduledOnly s.daily_plan) := rfl

/-- A second dependent that shares the name "Max" with `petMax` but is a
distinct entity (a cat, not a dog). -/
def petMaxCat : Pet := ⟨"Max", "Cat", 3⟩

/-- A 9:00-9:30 task for the dog named Max. -/
def taskMaxDog : Task :=
  { name := "Walk dog Max", task_type := "walk", duration := 30, priority := 2,
    pet := petMax, scheduled_time := some 540 }

/-- A 9:00-9:30 task for the distinct cat also named Max. -/
def taskMaxCat : Task :=
  { name := "Play with cat Max", task_type := "enrichment", duration := 30, priority := 2,
    pet := petMaxCat, scheduled_time := some 540 }

/-- A scheduler whose plan holds fully-overlapping tasks of the two
distinct same-named dependents. -/
def schedTwoMax : Scheduler :=
  { owner := ownerSixty, tasks := [taskMaxDog, taskMaxCat],
    daily_plan := [taskMaxDog, taskMaxCat], conflicts := [] }

/-- Counterexample to C5 as stated: the two tasks belong to two DISTINCT
dependents (a dog and a cat that merely share the name "Max"), yet
`detect_pet_conflicts` reports a resource conflict for them, because the
scan compares dependent names, not entity identity.  This falsifies both
the only-if direction of the claimed iff and the claim that two different
dependents' fully-overlapping tasks produce no resource conflict. -/
theorem detect_pet_conflicts_distinct_dependents_counterexample :
    taskMaxDog.pet ≠ taskMaxCat.pet
  ∧ (taskMaxDog, taskMaxCat) ∈ schedTwoMax.detect_pet_conflicts := by decide

/-- C5 (amended): a resource conflict is reported iff both tasks are
scheduled, their dependents carry the SAME NAME, and the half-open
intervals overlap; pairs whose dependents' names differ are never
reported as resource conflicts (though, if overlapping, they are still
reported exactly once as temporal conflicts); every reported resource
conflict also appears in the independently computed temporal conflict
list, and `detect_all_conflicts` returns both lists side by side without
deduplication. -/
theorem detect_pet_conflicts_characterization (s : Scheduler) :
    (∀ a b : Task, (a, b) ∈ s.detect_pet_conflicts →
        a.pet.name = b.pet.name
          ∧ a.scheduled_time.isSome ∧ b.scheduled_time.isSome
          ∧ sTime a < sTime b + b.duration ∧ sTime b < sTime a + a.duration)
  ∧ ((scheduledOnly s.daily_plan).Nodup → ∀ a b : Task, a ≠ b →
      s.detect_pet_conflicts.count (a, b) + s.detect_pet_conflicts.count (b, a)
        = if a ∈ scheduledOnly s.daily_plan ∧ b ∈ scheduledOnly s.daily_plan
              ∧ a.pet.name = b.pet.name
              ∧ sTime a < sTime b + b.duration ∧ sTime b < sTime a + a.duration
          then 1 else 0)
  ∧ (∀ a b : Task, a.pet.name ≠ b.pet.name →
      (a, b) ∉ s.detect_pet_conflicts ∧ (b, a) ∉ s.detect_pet_conflicts)
  ∧ ((scheduledOnly s.daily_plan).Nodup → ∀ a b : Task, a ≠ b →
      a ∈ scheduledOnly s.daily_plan → b ∈ scheduledOnly s.daily_plan →
      sTime a < sTime b + b.duration → sTime b < sTime a + a.duration →
      s.detect_time_conflicts.count (a, b) + s.detect_time_conflicts.count (b, a) = 1)
  ∧ (∀ a b : Task, (a, b) ∈ s.detect_pet_conflicts → (a, b) ∈ s.detect_time_conflicts)
  ∧ s.detect_all_conflicts.time_conflicts = s.detect_time_conflicts
  ∧ s.detect_all_conflicts.pet_conflicts = s.detect_pet_conflicts := by
  have hsound : ∀ a b : Task, (a, b) ∈ s.detect_pet_conflicts →
      a.pet.name = b.pet.name
        ∧ a.scheduled_time.isSome ∧ b.scheduled_time.isSome
        ∧ sTime a < sTime b + b.duration ∧ sTime b < sTime a + a.duration := by
    intro a b h
    rw [detect_pet_conflicts_eq] at h
    have h2 := pairScan_mem petPairTest (scheduledOnly s.daily_plan) a b h
    have ha := (List.mem_filter.mp h2.1).2
    have hb := (List.mem_filter.mp h2.2.1).2
    have hov := h2.2.2
    simp only [petPairTest, overlapB, Bool.and_eq_true, decide_eq_true_eq] at hov
    exact ⟨hov.1, by simpa using ha, by simpa using hb, hov.2.1, hov.2.2⟩
  refine ⟨hsound, ?_, ?_, ?_, ?_, rfl, rfl⟩
  · intro hnd a b hab
    rw [detect_pet_conflicts_eq,
      pairScan_count petPairTest petPairTest_symm (scheduledOnly s.daily_plan) hnd a b hab]
    exact if_congr (by simp [petPairTest, overlapB, and_assoc]) rfl rfl
  · intro a b hne
    constructor
    · intro hmem
      exact hne (hsound a b hmem).1
    · intro hmem
      exact hne ((hsound b a hmem).1).symm
  · intro hnd a b hab hamem hbmem hov1 hov2
    show (pairScan overlapB (scheduledOnly s.daily_plan)).count (a, b)
        + (pairScan overlapB (scheduledOnly s.daily_plan)).count (b, a) = 1
    rw [pairScan_count overlapB overlapB_symm (scheduledOnly s.daily_plan) hnd a b hab]
    exact if_pos ⟨hamem, hbmem, by simp [overlapB]; omega⟩
  · intro a b hmem
    rw [detect_pet_conflicts_eq] at hmem
    exact pairScan_mono petPairTest overlapB
      (fun x y hxy => by
        simp only [petPairTest, Bool.and_eq_true] at hxy
        exact hxy.2)
      (scheduledOnly s.daily_plan) a b hmem

/-- Witness for C5 (amended) at the concrete same-named overlapping pair:
reported exactly once as a resource conflict and also present in the
temporal list. -/
theorem detect_pet_conflicts_characterization_witness :
    (schedTwoMax.detect_pet_conflicts.count (taskMaxDog, taskMaxCat)
      + schedTwoMax.detect_pet_conflicts.count (taskMaxCat, taskMaxDog) = 1)
  ∧ (taskMaxDog, taskMaxCat) ∈ schedTwoMax.detect_time_conflicts := by
  constructor
  · have h := (detect_pet_conflicts_characterization schedTwoMax).2.1 (by decide)
      taskMaxDog taskMaxCat (by decide)
    exact h.trans (by decide)
  · exact (detect_pet_conflicts_characterization schedTwoMax).2.2.2.2.1
      taskMaxDog taskMaxCat (by decide)

/-- C10: the resource-conflict scan compares dependent NAME strings, not
entity identity: two temporally-overlapping scheduled tasks belonging to
two distinct dependents (different species and entity values) that share
the name "Max" are reported as a resource conflict. -/
theorem resource_conflict_matches_by_name_not_identity :
    taskMaxDog.pet ≠ taskMaxCat.pet
  ∧ taskMaxDog.pet.name = taskMaxCat.pet.name
  ∧ (taskMaxDog, taskMaxCat) ∈ schedTwoMax.detect_pet_conflicts
  ∧ (taskMaxDog, taskMaxCat) ∈ schedTwoMax.detect_time_conflicts := by decide

/-- Witness for C7 at a concrete scheduler. -/
theorem sort_by_priority_sorted_and_stable_witness :
    (schedSixty.sort_by_priority).Perm schedSixty.tasks :=
  (sort_by_priority_sorted_and_stable schedSixty).2.2

/-- Witness for C8 at a concrete scheduler: the second run reproduces the
first run's plan. -/
theorem generate_daily_plan_idempotent_witness :
    ((schedSixty.generate_daily_plan "priority").generate_daily_plan "priority").daily_plan
      = (schedSixty.generate_daily_plan "priority").daily_plan :=
  (generate_daily_plan_idempotent schedSixty "priority").1.1

end PawPal
